import Mathlib

/-!
Verification of the drive-rag repository's natural-language specification
against a shallow embedding of its Python source (`src/app`).

The embedding conventions:
* Python ints are `ℤ` or `ℕ`; float arithmetic on small scores/confidences
  is modelled exactly with `ℚ`.
* Python dicts that are keyed by chunk id and rely on insertion order are
  association lists `List (String × α)` with insertion-ordered update.
* Calls that leave the program (database queries, the embedding model, the
  reranker model, the LLM) are oracle parameters: the theorems quantify over
  every possible outcome of those calls.
* Fallible code returns `Except`.
-/

namespace DriveRag

/-! ## Chunks / candidate dictionaries

A retrieval candidate is the dict produced by
`HybridRetriever._fetch_chunk_details` (src/app/retrieval/hybrid.py):
the fields read later by the agent and the formatters. Optional fields
(read with `dict.get(key, default)`) are `Option`. -/

structure Cand where
  chunk_id : String
  text : String
  file_name : Option String
  drive_link : Option String
  page_or_heading : Option String
  document_id : Option String
  score : Option ℚ
  deriving DecidableEq, Repr

/-! ## String helpers (Python semantics)

`sub in s` is contiguous-substring containment (an empty `sub` is always
contained); `s.split()` splits on whitespace runs; `s.lower()` lowercases
(ASCII here; every keyword and every concrete query we evaluate is already
lowercase beyond ASCII). -/

/-- `s.lower()` (ASCII case mapping), computed on the character list. -/
def pyLower (s : String) : String := ⟨s.data.map Char.toLower⟩

/-- Python `sub in s` on character lists: `sub` occurs contiguously in `l`. -/
def subSeqIn : List Char → List Char → Bool
  | sub, [] => sub.isEmpty
  | sub, c :: t => sub.isPrefixOf (c :: t) || subSeqIn sub t

/-- Python `sub in s` for strings. -/
def strContains (s sub : String) : Bool :=
  subSeqIn sub.data s.data

/-- Number of whitespace-separated words, i.e. `len(s.split())`.
The boolean argument records whether we are inside a word. -/
def wordCountAux : List Char → Bool → ℕ
  | [], _ => 0
  | c :: t, inw =>
    if c.isWhitespace then wordCountAux t false
    else (if inw then 0 else 1) + wordCountAux t true

/-- `len(query.split())`. -/
def wordCount (s : String) : ℕ := wordCountAux s.data false

/-! ## `calculate_dynamic_top_k` (src/app/main.py, lines 67-132) -/

def exhaustive_keywords : List String :=
  ["etsi", "hae", "löydä", "kaikki", "kaikkia",
   "search", "find", "all", "every", "each",
   "listaa", "luettele", "kerro kaikki",
   "mitkä kaikki", "mitä kaikkea"]

def question_markers : List String :=
  ["?", "ja", "sekä", "myös", "lisäksi", "and", "also"]

def comparative_keywords : List String :=
  ["vertaa", "vertaile", "ero", "erot", "eroa",
   "compare", "difference",
   "yhteenveto", "summary", "kokonaiskuva", "overview"]

def specific_keywords : List String :=
  ["mikä on", "kuka on", "milloin", "missä",
   "what is", "who is", "when", "where",
   "määrittele", "define"]

/-- The running `top_k` value of `calculate_dynamic_top_k` just before the
final clamp (src/app/main.py lines 80-129). -/
def top_k_raw (query : String) : ℤ :=
  let query_lower := pyLower query
  let top_k : ℤ := 6
  -- exhaustive search keywords override the base
  let top_k :=
    if exhaustive_keywords.any (fun kw => strContains query_lower kw) then 20 else top_k
  -- Factor 1: query length
  let words := wordCount query
  let top_k :=
    if words > 20 then top_k + 3
    else if words > 10 then top_k + 2
    else if words < 5 then max (top_k - 1) 4
    else top_k
  -- Factor 2: multiple questions
  let question_count :=
    (question_markers.filter (fun m => strContains query_lower m)).length
  let top_k :=
    if question_count > 2 then top_k + 3
    else if question_count > 1 then top_k + 2
    else top_k
  -- Factor 3: comparative/list queries
  let top_k :=
    if comparative_keywords.any (fun kw => strContains query_lower kw) then top_k + 4
    else top_k
  -- Factor 4: specific detail queries
  let top_k :=
    if specific_keywords.any (fun kw => strContains query_lower kw) then max (top_k - 2) 4
    else top_k
  top_k

/-- `calculate_dynamic_top_k` (src/app/main.py lines 67-132); the final
line clamps into [4, 20]. -/
def calculate_dynamic_top_k (query : String) : ℤ :=
  max 4 (min 20 (top_k_raw query))

end DriveRag

namespace DriveRag

/-! ## `_reciprocal_rank_fusion` (src/app/retrieval/hybrid.py, lines 148-189)

The function reads only `result['chunk_id']` from each input dict, so the
two input result lists are embedded as lists of chunk ids. `rrf_scores` is
the insertion-ordered Python dict, embedded as an association list whose
update keeps the position of an existing key and appends a new key. -/

/-- `rrf_scores[chunk_id] = rrf_scores.get(chunk_id, 0) + v` on an
insertion-ordered dict. -/
def dictAdd : List (String × ℚ) → String → ℚ → List (String × ℚ)
  | [], id, v => [(id, v)]
  | (key, s) :: t, id, v =>
    if key = id then (key, s + v) :: t else (key, s) :: dictAdd t id v

/-- One `for rank, result in enumerate(results, start=rank)` scoring pass:
each id contributes `1 / (k + rank)`. -/
def addRanks (k : ℕ) : List (String × ℚ) → List String → ℕ → List (String × ℚ)
  | d, [], _ => d
  | d, id :: rest, rank =>
    addRanks k (dictAdd d id (1 / ((k : ℚ) + rank))) rest (rank + 1)

/-- Stable insertion into a score-descending list: an element moves past
`y` only when `y`'s score is strictly larger, so equal scores keep the
earlier element first. -/
def insertDesc (x : String × ℚ) : List (String × ℚ) → List (String × ℚ)
  | [] => [x]
  | y :: ys => if x.2 < y.2 then y :: insertDesc x ys else x :: y :: ys

/-- Stable sort by score descending, modelling Python's stable
`sorted(rrf_scores.items(), key=lambda x: x[1], reverse=True)`. -/
def sortDesc : List (String × ℚ) → List (String × ℚ)
  | [] => []
  | x :: xs => insertDesc x (sortDesc xs)

/-- The complete `rrf_scores` dict after both scoring passes
(src/app/retrieval/hybrid.py lines 167-177). -/
def rrfScores (vector_results bm25_results : List String) (k : ℕ) :
    List (String × ℚ) :=
  addRanks k (addRanks k [] vector_results 1) bm25_results 1

/-- The fused ranking before the `[:top_k]` truncation
(src/app/retrieval/hybrid.py lines 167-184). -/
def fusedRanking (vector_results bm25_results : List String) (k : ℕ) :
    List (String × ℚ) :=
  sortDesc (rrfScores vector_results bm25_results k)

/-- `_reciprocal_rank_fusion(vector_results, bm25_results, top_k, k)`:
the returned list of `(chunk_id, rrf_score)` pairs. -/
def reciprocal_rank_fusion (vector_results bm25_results : List String)
    (top_k k : ℕ) : List (String × ℚ) :=
  (fusedRanking vector_results bm25_results k).take top_k

/-- The total reciprocal-rank contribution of `id` in one scoring pass over
`l` whose first element has rank `rank`. -/
def contribFrom (k : ℕ) : List String → ℕ → String → ℚ
  | [], _, _ => 0
  | x :: rest, rank, id =>
    (if x = id then 1 / ((k : ℚ) + rank) else 0) + contribFrom k rest (rank + 1) id

/-- The reciprocal-rank contribution of `id` from list `l` (ranks start at 1). -/
def contrib (k : ℕ) (l : List String) (id : String) : ℚ := contribFrom k l 1 id

/-- Python `rrf_scores.get(id)` on the association-list dict. -/
def scoreOf : List (String × ℚ) → String → Option ℚ
  | [], _ => none
  | (key, s) :: t, id => if key = id then some s else scoreOf t id

/-- Python `rrf_scores.get(id, 0)`. -/
def scoreOfD (d : List (String × ℚ)) (id : String) : ℚ := (scoreOf d id).getD 0

/-- The keys of the dict, in insertion order. -/
def keysOf (d : List (String × ℚ)) : List String := d.map Prod.fst

/-- The `(id, score)` pairs of one pass over a list that repeats no id:
each element is scored by its own rank only. -/
def rankedList (k : ℕ) : List String → ℕ → List (String × ℚ)
  | [], _ => []
  | x :: rest, rank => (x, 1 / ((k : ℚ) + rank)) :: rankedList k rest (rank + 1)

/-! ## `IterativeRAGAgent.search_iteratively` (src/app/agents/iterative_rag.py)

The retriever, reranker and LLM are oracles in `AgentEnv`; the agent's
constructor arguments are `AgentCfg`. The `all_sources` dict is an
insertion-ordered association list. The state record carries one ghost
field, `trace`: the successive values taken by `all_sources` (one snapshot
before each candidate is processed and one after the last), used only to
state the spec's "at every point" invariants. -/

/-- One iteration of the agent loop, as recorded in `iterations`
(the `SearchIteration` dataclass, src/app/agents/iterative_rag.py 9-17). -/
structure SearchIteration where
  iteration : ℕ
  query : String
  num_results : ℕ
  assessment : String
  confidence : ℚ
  missing_info : List String
  deriving DecidableEq, Repr

/-- The dict returned by `_assess_completeness`. -/
structure AssessOut where
  assessment : String
  confidence : ℚ
  missing_info : List String
  deriving DecidableEq, Repr

/-- Oracles for everything `search_iteratively` calls out to:
`retriever.search` (given the iteration number, the current query and
`initial_candidates`), `reranker.rerank`, the outcome of
`_assess_completeness` at each iteration, the outcome of
`_generate_followup_query`, and `_generate_comprehensive_answer`. -/
structure AgentEnv where
  search : ℕ → String → ℕ → List Cand
  rerank : String → List Cand → ℕ → List Cand
  assess : ℕ → List Cand → AssessOut
  followup : String → List String → String
  genAnswer : String → List Cand → List SearchIteration → String

/-- The agent's constructor parameters (src/app/agents/iterative_rag.py
31-56) plus `initial_candidates` from `search_iteratively`'s signature. -/
structure AgentCfg where
  max_iterations : ℕ
  confidence_threshold : ℚ
  max_sources : ℕ
  initial_candidates : ℕ
  deriving DecidableEq, Repr

/-- `all_sources.get(id)`: first binding of `id` in the association list. -/
def lookupId : List (String × Cand) → String → Option Cand
  | [], _ => none
  | (key, c) :: t, id => if key = id then some c else lookupId t id

/-- Lines 90-93: `if chunk_id not in all_sources: all_sources[chunk_id] = cand`.
A new key is appended; an existing key leaves the dict untouched. -/
def insertStep (acc : List (String × Cand)) (c : Cand) : List (String × Cand) :=
  if c.chunk_id ∈ acc.map Prod.fst then acc else acc ++ [(c.chunk_id, c)]

/-- The dedup loop over one retrieval batch (lines 89-93). -/
def insertCands (acc : List (String × Cand)) (cs : List Cand) :
    List (String × Cand) :=
  cs.foldl insertStep acc

/-- Ghost bookkeeping: every value `all_sources` takes while one batch is
folded in (the snapshot before each candidate, plus the final one). -/
def snapshots : List (String × Cand) → List Cand → List (List (String × Cand))
  | acc, [] => [acc]
  | acc, c :: cs => acc :: snapshots (insertStep acc c) cs

/-- The loop state: `all_sources`, `iterations`, `current_query`, the local
variable `reranked` (None while still unassigned, which is how Python's
NameError materialises), and the ghost `trace`. -/
structure AgentSt where
  all_sources : List (String × Cand)
  iterations : List SearchIteration
  current_query : String
  reranked : Option (List Cand)
  trace : List (List (String × Cand))
  deriving DecidableEq, Repr

/-- `_broaden_query` (src/app/agents/iterative_rag.py 296-316). -/
def broadening_patterns (original_query : String) : List String :=
  ["kaikki tiedot " ++ original_query,
   "kattava selvitys " ++ original_query,
   "laaja haku " ++ original_query,
   "eri näkökulmat " ++ original_query]

/-- `_broaden_query`: pattern `(iteration - 1) % 4`. -/
def broaden_query (original_query : String) (iteration : ℕ) : String :=
  let ps := broadening_patterns original_query
  ps.getD ((iteration - 1) % ps.length) original_query

/-- The body of one `for iteration in range(1, max_iterations + 1)` pass
(src/app/agents/iterative_rag.py 80-149); the boolean is true when one of
the three `break` conditions fired (confidence reached, source cap reached,
last iteration). The query update is skipped exactly when breaking. -/
def searchBody (env : AgentEnv) (cfg : AgentCfg) (original_query : String)
    (iteration : ℕ) (st : AgentSt) : AgentSt × Bool :=
  let candidates := env.search iteration st.current_query cfg.initial_candidates
  let all' := insertCands st.all_sources candidates
  let all_sources_list := all'.map Prod.snd
  let reranked :=
    env.rerank original_query all_sources_list
      (min cfg.max_sources all_sources_list.length)
  let a := env.assess iteration reranked
  let its := st.iterations ++
    [⟨iteration, st.current_query, reranked.length, a.assessment,
      a.confidence, a.missing_info⟩]
  let stop : Bool :=
    decide (cfg.confidence_threshold ≤ a.confidence) ||
      decide (cfg.max_sources ≤ all'.length) ||
        decide (cfg.max_iterations ≤ iteration)
  let next_query :=
    if stop then st.current_query
    else if a.missing_info ≠ [] then env.followup original_query a.missing_info
    else broaden_query original_query iteration
  (⟨all', its, next_query, some reranked,
    st.trace ++ snapshots st.all_sources candidates⟩, stop)

/-- The `for` loop itself: the first argument is the number of remaining
iterations, the second the 1-based iteration counter. -/
def searchLoop (env : AgentEnv) (cfg : AgentCfg) (original_query : String) :
    ℕ → ℕ → AgentSt → AgentSt
  | 0, _, st => st
  | r + 1, i, st =>
    if (searchBody env cfg original_query i st).2 then
      (searchBody env cfg original_query i st).1
    else
      searchLoop env cfg original_query r (i + 1)
        (searchBody env cfg original_query i st).1

/-- The state at line 75-78: empty dict, no iterations, the original query,
`reranked` unbound; the ghost trace starts with the empty accumulator. -/
def initialSt (original_query : String) : AgentSt :=
  ⟨[], [], original_query, none, [[]]⟩

/-- The loop state after the `for` loop of `search_iteratively` ends. -/
def finalState (env : AgentEnv) (cfg : AgentCfg) (original_query : String) :
    AgentSt :=
  searchLoop env cfg original_query cfg.max_iterations 1
    (initialSt original_query)

/-- A formatted source of the API response (`_format_sources`, and the
`Source` model of src/app/main.py 196-201). -/
structure FmtSource where
  file_name : String
  link : String
  locator : String
  chunk_id : String
  snippet : String
  deriving DecidableEq, Repr

/-- One entry of `_format_sources` (src/app/agents/iterative_rag.py
381-397): snippet is the first 200 characters plus "..." when truncated. -/
def format_source (src : Cand) : FmtSource :=
  { file_name := src.file_name.getD "Unknown"
    link := src.drive_link.getD ""
    locator := src.page_or_heading.getD "N/A"
    chunk_id := src.chunk_id
    snippet := (⟨src.text.data.take 200⟩ : String) ++
      (if 200 < src.text.data.length then "..." else "") }

/-- `_format_sources`. -/
def format_sources (sources : List Cand) : List FmtSource :=
  sources.map format_source

/-- The error `search_iteratively` actually raises when the loop body never
ran: line 152 reads the local `reranked`, which was never assigned. -/
inductive AgentErr where
  | unboundLocalReranked
  deriving DecidableEq, Repr

/-- The dict returned by `search_iteratively` (lines 160-177). -/
structure RunResult where
  answer : String
  sources : List FmtSource
  iterations : List SearchIteration
  total_sources : ℕ
  total_iterations : ℕ
  final_confidence : ℚ
  deriving DecidableEq, Repr

/-- `search_iteratively` (src/app/agents/iterative_rag.py 58-177). After the
loop, line 152 evaluates `len(reranked)`: if the loop never ran this raises
`NameError` (modelled as `AgentErr.unboundLocalReranked`); otherwise the
result dict is built, with `final_confidence` falling back to 0.0 when no
iterations were recorded. -/
def search_iteratively (env : AgentEnv) (cfg : AgentCfg)
    (original_query : String) : Except AgentErr RunResult :=
  let st := finalState env cfg original_query
  match st.reranked with
  | none => .error .unboundLocalReranked
  | some reranked =>
    .ok { answer := env.genAnswer original_query reranked st.iterations
          sources := format_sources reranked
          iterations := st.iterations
          total_sources := reranked.length
          total_iterations := st.iterations.length
          final_confidence :=
            match st.iterations.getLast? with
            | some it => it.confidence
            | none => 0 }

/-- Keys of the accumulator are pairwise distinct. -/
def keysNodup (acc : List (String × Cand)) : Prop :=
  (acc.map Prod.fst).Nodup

/-- The structural invariant of the ghost trace: nonempty, its last element
is the current accumulator, consecutive snapshots extend each other, and
every snapshot has duplicate-free keys. -/
def TraceChain (st : AgentSt) : Prop :=
  st.trace ≠ [] ∧ st.trace.getLast? = some st.all_sources ∧
    st.trace.Chain' (· <+: ·) ∧ ∀ acc ∈ st.trace, keysNodup acc

/-- Every snapshot's size is bounded by `max_sources - 1` plus the size `B`
of one retrieval batch. -/
def TraceLen (cfg : AgentCfg) (B : ℕ) (st : AgentSt) : Prop :=
  ∀ acc ∈ st.trace, acc.length ≤ cfg.max_sources - 1 + B

/-! ## `_assess_completeness` (src/app/agents/iterative_rag.py, 179-258)

`llm_service.generate` and `json.loads` are oracles: `generate` may raise
(the bare `except` catches everything) and `json.loads` either fails or
yields the three fields the code reads. A JSON object whose `confidence`
value is not a number makes the later division raise, which the same
`except` turns into the fallback; that outcome is covered by the
`jsonLoads` oracle answering `error`. -/

/-- The character `{` (written by code point to keep it out of string
literals). -/
def lbrace : Char := Char.ofNat 123

/-- The character `}`. -/
def rbrace : Char := Char.ofNat 125

/-- Python `s.find(c)`: first index of `c`, or -1. -/
def pyFind (s : String) (c : Char) : ℤ :=
  match s.data.findIdx? (fun x => x == c) with
  | some i => (i : ℤ)
  | none => -1

/-- Python `s.rfind(c)`: last index of `c`, or -1. -/
def pyRFind (s : String) (c : Char) : ℤ :=
  match s.data.reverse.findIdx? (fun x => x == c) with
  | some i => (s.data.length : ℤ) - 1 - (i : ℤ)
  | none => -1

/-- Python `s[a:b]` for the in-range non-negative indices this code uses. -/
def pySlice (s : String) (a b : ℤ) : String :=
  ⟨(s.data.take b.toNat).drop a.toNat⟩

/-- The fields `_assess_completeness` reads from the parsed JSON object:
`confidence` (a number, default 50), `missing_info` (`none`: key absent;
`some none`: present but not a list; `some (some l)`: a list), and
`reasoning`. -/
structure ParsedAssessment where
  confidence : Option ℚ
  missing_info : Option (Option (List String))
  reasoning : Option String
  deriving DecidableEq, Repr

/-- Oracles for the two external calls of `_assess_completeness`. -/
structure AssessorEnv where
  generate : String → Except Unit String
  jsonLoads : String → Except Unit ParsedAssessment

/-- The assessment prompt. The exact Finnish prompt text of the source is
immaterial to every theorem below (the `generate` oracle is universally
quantified); we keep the data the prompt is built from: the query and the
top-15 source excerpts (lines 198-226). -/
def assessment_prompt (query : String) (sources : List Cand) : String :=
  "Arvioi voivatko nämä lähteet vastata kysymykseen kattavasti. " ++ query ++
    String.intercalate "\n\n"
      ((sources.take 15).map (fun src =>
        src.file_name.getD "Unknown" ++ ": " ++
          (⟨src.text.data.take 200⟩ : String)))

/-- The fallback heuristic (lines 251-258):
`min(0.5 + len(sources)/40, 0.9)` with an empty missing-info list. -/
def heuristic_fallback (sources : List Cand) : AssessOut :=
  { assessment := "Löydettiin " ++ toString sources.length ++ " lähdettä"
    confidence := min ((1 : ℚ) / 2 + (sources.length : ℚ) / 40) (9 / 10)
    missing_info := [] }

/-- `_assess_completeness` (lines 179-258). Empty sources short-circuit;
otherwise the LLM is called, the maximal `{`...`}` span of its response is
parsed, and any failure along the way falls through to the heuristic. -/
def assess_completeness (aenv : AssessorEnv) (query : String)
    (sources : List Cand) (iteration : ℕ) : AssessOut :=
  if sources.isEmpty then
    { assessment := "Ei lähteitä löytynyt"
      confidence := 0
      missing_info := ["Tarvitaan relevantteja lähteitä"] }
  else
    match aenv.generate (assessment_prompt query sources) with
    | .error _ => heuristic_fallback sources
    | .ok response =>
      if 0 ≤ pyFind response lbrace ∧
          pyFind response lbrace < pyRFind response rbrace + 1 then
        match aenv.jsonLoads (pySlice response (pyFind response lbrace)
            (pyRFind response rbrace + 1)) with
        | .error _ => heuristic_fallback sources
        | .ok result =>
          { assessment := result.reasoning.getD "Ei perustelua"
            confidence := (result.confidence.getD 50) / 100
            missing_info :=
              match result.missing_info with
              | none => []
              | some none => []
              | some (some l) => l }
      else heuristic_fallback sources

/-- True exactly when `_assess_completeness`'s try-block fails to produce a
parsed JSON object: the LLM call raises, the response has no valid
`{`...`}` span, or `json.loads` fails. -/
def assess_parse_failed (aenv : AssessorEnv) (prompt : String) : Bool :=
  match aenv.generate prompt with
  | .error _ => true
  | .ok response =>
    if 0 ≤ pyFind response lbrace ∧
        pyFind response lbrace < pyRFind response rbrace + 1 then
      match aenv.jsonLoads (pySlice response (pyFind response lbrace)
          (pyRFind response rbrace + 1)) with
      | .error _ => true
      | .ok _ => false
    else true

/-! ## Source formatting of the two pipelines (C8)

`_format_sources` (iterative pipeline) is `format_source` above; the
research pipeline stores sources inline in `deep_research`
(src/app/main.py 530-548). -/

/-- The snippet format the spec claims for every response: the first 200
characters of the chunk text, with an ellipsis marker appended iff the
text is longer than 200 characters. -/
def spec_snippet_200 (text : String) : String :=
  (⟨text.data.take 200⟩ : String) ++
    (if 200 < text.data.length then "..." else "")

/-- The research pipeline's actual snippet format: 150 characters. -/
def spec_snippet_150 (text : String) : String :=
  (⟨text.data.take 150⟩ : String) ++
    (if 150 < text.data.length then "..." else "")

/-- The source dict `deep_research` stores into `all_sources`
(src/app/main.py 535-547): snippet is `doc['text'][:150]` plus "..." when
truncated. -/
def research_store_source (doc : Cand) : FmtSource :=
  { file_name := doc.file_name.getD "Unknown"
    link := doc.drive_link.getD ""
    locator := doc.page_or_heading.getD "N/A"
    chunk_id := doc.chunk_id
    snippet := (⟨doc.text.data.take 150⟩ : String) ++
      (if 150 < doc.text.data.length then "..." else "") }

/-- The `all_sources` accumulation over one sub-question's reranked list
(src/app/main.py 530-548): first occurrence of a chunk id wins. -/
def research_accumulate (acc : List (String × FmtSource))
    (reranked : List Cand) : List (String × FmtSource) :=
  reranked.foldl
    (fun a doc =>
      if doc.chunk_id ∈ a.map Prod.fst then a
      else a ++ [(doc.chunk_id, research_store_source doc)]) acc

/-- The `sources` list of the `/research` response: the accumulated dict's
values over all sub-questions (src/app/main.py 619). -/
def research_sources (rerankedPerSubQ : List (List Cand)) : List FmtSource :=
  (rerankedPerSubQ.foldl research_accumulate []).map Prod.snd

/-! ## `HybridRetriever.search` and `document_search`
(src/app/retrieval/hybrid.py) -/

/-- Oracles for the retriever's external calls: the embedding model (which
may raise) and the three database queries. `vectorSearch`/`bm25Search`
yield ranked chunk ids; `fetchDetails` is `_fetch_chunk_details` on the
fused `(chunk_id, rrf_score)` list. -/
structure RetrieverEnv where
  embed : String → Except Unit (List ℚ)
  vectorSearch : List ℚ → ℕ → List String
  bm25Search : String → ℕ → List String
  fetchDetails : List (String × ℚ) → List Cand

/-- `HybridRetriever.search` (lines 18-52): the embedding call is *not*
guarded, so its failure propagates to the caller. -/
def search (renv : RetrieverEnv) (query : String) (top_k : ℕ) :
    Except Unit (List Cand) :=
  match renv.embed query with
  | .error e => .error e
  | .ok query_embedding =>
    let vector_results := renv.vectorSearch query_embedding (top_k * 2)
    let bm25_results := renv.bm25Search query (top_k * 2)
    let combined_results :=
      reciprocal_rank_fusion vector_results bm25_results top_k 60
    .ok (renv.fetchDetails combined_results)

/-- One aggregated document of `document_search`'s response. -/
structure DocEntry where
  document_id : String
  file_name : Option String
  drive_link : Option String
  best_score : ℚ
  matched_chunks : List Cand
  deriving DecidableEq, Repr

/-- The per-chunk update of the `docs` dict (src/app/retrieval/hybrid.py
287-304): a new document id is appended, an existing one collects the
chunk and raises `best_score` when beaten. -/
def docsUpdate : List (String × DocEntry) → String → Cand → ℚ →
    List (String × DocEntry)
  | [], doc_id, c, score =>
    [(doc_id, ⟨doc_id, c.file_name, c.drive_link, score, [c]⟩)]
  | (key, e) :: t, doc_id, c, score =>
    if key = doc_id then
      (key, { e with
        matched_chunks := e.matched_chunks ++ [c]
        best_score := if e.best_score < score then score else e.best_score
      }) :: t
    else (key, e) :: docsUpdate t doc_id c score

/-- Stable insertion by `best_score` descending. -/
def insertDocDesc (x : DocEntry) : List DocEntry → List DocEntry
  | [] => [x]
  | y :: ys =>
    if x.best_score < y.best_score then y :: insertDocDesc x ys
    else x :: y :: ys

/-- Python's stable `sorted(docs.values(), key=..., reverse=True)`. -/
def sortDocsDesc : List DocEntry → List DocEntry
  | [] => []
  | x :: xs => insertDocDesc x (sortDocsDesc xs)

/-- The `docs` aggregation loop over the fetched chunks: chunks with a
missing or falsy (empty-string) `document_id` are skipped. -/
def docsFold (chunk_details : List Cand) : List (String × DocEntry) :=
  chunk_details.foldl
    (fun acc c =>
      match c.document_id with
      | none => acc
      | some doc_id =>
        if doc_id = "" then acc
        else docsUpdate acc doc_id c (c.score.getD 0)) []

/-- `HybridRetriever.document_search` (lines 252-312): the embedding call
is wrapped in try/except, a failure leaving the vector result list empty. -/
def document_search (renv : RetrieverEnv) (query : String)
    (max_chunks top_docs : ℕ) : List DocEntry :=
  let vector_results :=
    match renv.embed query with
    | .error _ => []
    | .ok query_embedding => renv.vectorSearch query_embedding max_chunks
  let bm25_results := renv.bm25Search query max_chunks
  let combined :=
    reciprocal_rank_fusion vector_results bm25_results max_chunks 60
  let chunk_details := renv.fetchDetails combined
  let sorted_docs := sortDocsDesc ((docsFold chunk_details).map Prod.snd)
  if 0 < top_docs then sorted_docs.take top_docs else sorted_docs

/-- Modelled from the spec's words "degrades to lexical-only ranking (the
vector contribution is empty)": the document-search pipeline with an empty
vector result list. -/
def lexical_only_document_search (renv : RetrieverEnv) (query : String)
    (max_chunks top_docs : ℕ) : List DocEntry :=
  let bm25_results := renv.bm25Search query max_chunks
  let combined := reciprocal_rank_fusion [] bm25_results max_chunks 60
  let chunk_details := renv.fetchDetails combined
  let sorted_docs := sortDocsDesc ((docsFold chunk_details).map Prod.snd)
  if 0 < top_docs then sorted_docs.take top_docs else sorted_docs

/-! ## Concrete data for evaluating the agent model on small inputs -/

/-- A concrete retrieval candidate. -/
def candA : Cand :=
  ⟨"id-a", "teksti a", some "A.pdf", some "link-a", some "sivu 1",
   some "doc-1", some 1⟩

/-- A second concrete retrieval candidate with a different chunk id. -/
def candB : Cand :=
  ⟨"id-b", "teksti b", none, none, none, some "doc-1", some 2⟩

/-- A concrete agent environment: each retrieval returns the two candidates
above, reranking is the identity, and every assessment has confidence 0. -/
def envX : AgentEnv :=
  { search := fun _ _ _ => [candA, candB]
    rerank := fun _ l _ => l
    assess := fun _ _ => ⟨"arvio", 0, []⟩
    followup := fun q _ => q
    genAnswer := fun _ _ _ => "vastaus" }

/-- An agent configured with `max_sources = 1` and a one-iteration budget. -/
def cfgX : AgentCfg :=
  ⟨1, 1, 1, 2⟩

/-- An agent configured with `max_iterations = 0`. -/
def cfg0 : AgentCfg :=
  ⟨0, 1, 100, 100⟩

/-- A concrete assessor environment whose LLM response has no braces and
whose JSON parser always fails. -/
def aenvW : AssessorEnv :=
  { generate := fun _ => .ok "ei json vastausta"
    jsonLoads := fun _ => .error () }

/-- A 151-character chunk text. -/
def longText : String := ⟨List.replicate 151 'a'⟩

/-- A candidate whose text has 151 characters. -/
def candLong : Cand := ⟨"id-long", longText, none, none, none, none, none⟩

/-- A concrete retriever environment whose embedding call fails. -/
def renvErr : RetrieverEnv :=
  { embed := fun _ => .error ()
    vectorSearch := fun _ _ => ["id-a"]
    bm25Search := fun _ _ => ["id-b"]
    fetchDetails := fun _ => [candB] }

/-- C4: for every query string, the top-k estimator `calculate_dynamic_top_k`
returns an integer in the closed interval [4, 20] (the function's last line
clamps the accumulated value). -/
theorem calculate_dynamic_top_k_bounds (query : String) :
    4 ≤ calculate_dynamic_top_k query ∧ calculate_dynamic_top_k query ≤ 20 := by
  unfold calculate_dynamic_top_k
  constructor
  · exact le_max_left _ _
  · exact max_le (by norm_num) (min_le_left _ _)

/-- C5, counterexample: the claim says the estimator returns 20 for
"etsi kaikki kokoukset", but the query has only 3 words, so after the
exhaustive marker sets `top_k = 20` the short-query rule
(`len(words) < 5`) subtracts 1, and the function returns 19. -/
theorem calculate_dynamic_top_k_etsi_ne_20 :
    calculate_dynamic_top_k "etsi kaikki kokoukset" ≠ 20 := by decide

/-- C5, amended: the estimator returns 19 (not 20) for
"etsi kaikki kokoukset" — the exhaustive marker sets 20 and the
short-query reduction then subtracts 1 — and returns 4 for "mikä on"
(specific-fact reduction applies, no exhaustive marker). -/
theorem calculate_dynamic_top_k_examples :
    calculate_dynamic_top_k "etsi kaikki kokoukset" = 19 ∧
      calculate_dynamic_top_k "mikä on" = 4 := by decide

/-! ### Lemmas about the fused RRF score dict -/

theorem scoreOfD_dictAdd_self (d : List (String × ℚ)) (id : String) (v : ℚ) :
    scoreOfD (dictAdd d id v) id = scoreOfD d id + v := by
  induction d with
  | nil => simp [dictAdd, scoreOfD, scoreOf]
  | cons hd t ih =>
    obtain ⟨key, s⟩ := hd
    by_cases h : key = id
    · subst h
      simp [dictAdd, scoreOfD, scoreOf]
    · simp only [dictAdd, if_neg h, scoreOfD, scoreOf] at ih ⊢
      exact ih

theorem scoreOf_dictAdd_other (d : List (String × ℚ)) {id id' : String} (v : ℚ)
    (h : id' ≠ id) : scoreOf (dictAdd d id v) id' = scoreOf d id' := by
  induction d with
  | nil =>
    simp only [dictAdd, scoreOf]
    rw [if_neg (fun hc => h hc.symm)]
  | cons hd t ih =>
    obtain ⟨key, s⟩ := hd
    by_cases hk : key = id
    · subst hk
      have hne : key ≠ id' := fun hc => h hc.symm
      simp [dictAdd, scoreOf, hne]
    · simp only [dictAdd, if_neg hk, scoreOf]
      by_cases hk' : key = id' <;> simp [hk', ih]

theorem addRanks_scoreOfD (k : ℕ) (l : List String) :
    ∀ (d : List (String × ℚ)) (rank : ℕ) (id : String),
      scoreOfD (addRanks k d l rank) id = scoreOfD d id + contribFrom k l rank id := by
  induction l with
  | nil =>
    intro d rank id
    simp [addRanks, contribFrom]
  | cons x rest ih =>
    intro d rank id
    rw [addRanks, ih, contribFrom]
    by_cases hx : x = id
    · subst hx
      rw [scoreOfD_dictAdd_self, if_pos rfl]
      ring
    · rw [if_neg hx]
      unfold scoreOfD
      rw [scoreOf_dictAdd_other _ _ (fun hc => hx hc.symm)]
      ring

theorem keysOf_dictAdd (d : List (String × ℚ)) (id : String) (v : ℚ) :
    keysOf (dictAdd d id v) =
      if id ∈ keysOf d then keysOf d else keysOf d ++ [id] := by
  induction d with
  | nil => simp [dictAdd, keysOf]
  | cons hd t ih =>
    obtain ⟨key, s⟩ := hd
    by_cases h : key = id
    · subst h
      simp [dictAdd, keysOf]
    · have hne : id ≠ key := fun hc => h hc.symm
      simp only [dictAdd, if_neg h, keysOf, List.map_cons] at ih ⊢
      rw [ih]
      by_cases hm : id ∈ t.map Prod.fst
      · rw [if_pos hm, if_pos (List.mem_cons_of_mem key hm)]
      · rw [if_neg hm,
            if_neg (by rw [List.mem_cons]; exact fun hc => hc.elim hne hm)]
        simp

theorem dictAdd_of_not_mem {d : List (String × ℚ)} {id : String} (v : ℚ)
    (h : id ∉ keysOf d) : dictAdd d id v = d ++ [(id, v)] := by
  induction d with
  | nil => simp [dictAdd]
  | cons hd t ih =>
    obtain ⟨key, s⟩ := hd
    have hk : key ≠ id := by
      intro hc
      exact h (by simp [keysOf, hc])
    have ht : id ∉ keysOf t := fun hc => h (by simp [keysOf] at hc ⊢; exact Or.inr hc)
    simp [dictAdd, hk, ih ht]

theorem nodup_keysOf_dictAdd {d : List (String × ℚ)} {id : String} {v : ℚ}
    (h : (keysOf d).Nodup) : (keysOf (dictAdd d id v)).Nodup := by
  rw [keysOf_dictAdd]
  by_cases hm : id ∈ keysOf d
  · rwa [if_pos hm]
  · rw [if_neg hm]
    simp [List.nodup_append, h, hm]

theorem mem_keysOf_dictAdd {d : List (String × ℚ)} {id id' : String} {v : ℚ} :
    id' ∈ keysOf (dictAdd d id v) ↔ id' ∈ keysOf d ∨ id' = id := by
  rw [keysOf_dictAdd]
  by_cases hm : id ∈ keysOf d
  · rw [if_pos hm]
    constructor
    · exact fun h => Or.inl h
    · rintro (h | rfl)
      · exact h
      · exact hm
  · rw [if_neg hm]
    simp

theorem nodup_keysOf_addRanks (k : ℕ) (l : List String) :
    ∀ (d : List (String × ℚ)) (rank : ℕ), (keysOf d).Nodup →
      (keysOf (addRanks k d l rank)).Nodup := by
  induction l with
  | nil => intro d rank h; simpa [addRanks] using h
  | cons x rest ih =>
    intro d rank h
    rw [addRanks]
    exact ih _ _ (nodup_keysOf_dictAdd h)

theorem mem_keysOf_addRanks (k : ℕ) (l : List String) :
    ∀ (d : List (String × ℚ)) (rank : ℕ) (id : String),
      id ∈ keysOf (addRanks k d l rank) ↔ id ∈ keysOf d ∨ id ∈ l := by
  induction l with
  | nil => intro d rank id; simp [addRanks]
  | cons x rest ih =>
    intro d rank id
    rw [addRanks, ih]
    rw [mem_keysOf_dictAdd]
    constructor
    · rintro ((h | rfl) | h)
      · exact Or.inl h
      · exact Or.inr (by simp)
      · exact Or.inr (by simp [h])
    · rintro (h | h)
      · exact Or.inl (Or.inl h)
      · rcases List.mem_cons.mp h with rfl | h
        · exact Or.inl (Or.inr rfl)
        · exact Or.inr h

theorem scoreOf_eq_of_mem {d : List (String × ℚ)} (h : (keysOf d).Nodup)
    {p : String × ℚ} (hp : p ∈ d) : scoreOf d p.1 = some p.2 := by
  induction d with
  | nil => cases hp
  | cons hd t ih =>
    obtain ⟨key, s⟩ := hd
    rw [keysOf, List.map_cons] at h
    have h' := List.nodup_cons.mp h
    rcases List.mem_cons.mp hp with rfl | hp
    · simp [scoreOf]
    · have hk : key ≠ p.1 := by
        intro hc
        have hmem : p.1 ∈ List.map Prod.fst t := List.mem_map_of_mem Prod.fst hp
        exact h'.1 (hc ▸ hmem)
      simp only [scoreOf, if_neg hk]
      exact ih h'.2 hp

/-! ### Lemmas about the stable descending sort -/

theorem insertDesc_perm (x : String × ℚ) (l : List (String × ℚ)) :
    List.Perm (insertDesc x l) (x :: l) := by
  induction l with
  | nil => exact List.Perm.refl _
  | cons y ys ih =>
    by_cases h : x.2 < y.2
    · rw [insertDesc, if_pos h]
      exact (ih.cons y).trans (List.Perm.swap x y ys)
    · rw [insertDesc, if_neg h]

theorem sortDesc_perm (l : List (String × ℚ)) : List.Perm (sortDesc l) l := by
  induction l with
  | nil => exact List.Perm.refl _
  | cons x xs ih => exact (insertDesc_perm x (sortDesc xs)).trans (ih.cons x)

theorem sortDesc_eq_of_chain (l : List (String × ℚ))
    (h : l.Chain' (fun a b => b.2 < a.2)) : sortDesc l = l := by
  induction l with
  | nil => rfl
  | cons x xs ih =>
    rw [sortDesc, ih h.tail]
    cases xs with
    | nil => rfl
    | cons y ys =>
      have hxy : y.2 < x.2 := (List.chain'_cons.mp h).1
      rw [insertDesc, if_neg (not_lt.mpr hxy.le)]

/-! ### One scoring pass over a duplicate-free list -/

theorem addRanks_eq_append_rankedList (k : ℕ) (l : List String) :
    ∀ (d : List (String × ℚ)) (rank : ℕ), l.Nodup →
      (∀ x ∈ l, x ∉ keysOf d) →
      addRanks k d l rank = d ++ rankedList k l rank := by
  induction l with
  | nil => intro d rank _ _; simp [addRanks, rankedList]
  | cons x rest ih =>
    intro d rank hnd hdisj
    rw [addRanks, rankedList,
        dictAdd_of_not_mem _ (hdisj x (List.mem_cons_self x rest))]
    have hnd' := List.nodup_cons.mp hnd
    rw [ih _ _ hnd'.2 ?_]
    · simp
    · intro y hy
      rw [keysOf, List.map_append]
      intro hmem
      rcases List.mem_append.mp hmem with hmem | hmem
      · exact hdisj y (List.mem_cons_of_mem x hy) hmem
      · have : y = x := by simpa using hmem
        exact hnd'.1 (this ▸ hy)

theorem keysOf_rankedList (k : ℕ) (l : List String) :
    ∀ rank : ℕ, keysOf (rankedList k l rank) = l := by
  induction l with
  | nil => intro rank; simp [rankedList, keysOf]
  | cons x rest ih =>
    intro rank
    simp only [rankedList, keysOf, List.map_cons]
    rw [show (rankedList k rest (rank + 1)).map Prod.fst = keysOf (rankedList k rest (rank + 1)) from rfl, ih]

theorem rankedList_chain (k : ℕ) (l : List String) :
    ∀ rank : ℕ, 1 ≤ rank →
      (rankedList k l rank).Chain' (fun a b => b.2 < a.2) := by
  induction l with
  | nil => intro rank _; simp [rankedList]
  | cons x rest ih =>
    intro rank hr
    cases rest with
    | nil => simp [rankedList]
    | cons y ys =>
      rw [rankedList, rankedList]
      refine List.chain'_cons.mpr ⟨?_, ?_⟩
      · show 1 / ((k : ℚ) + (rank + 1 : ℕ)) < 1 / ((k : ℚ) + rank)
        have h0 : (0 : ℚ) < (k : ℚ) + rank := by
          have h1 : (1 : ℚ) ≤ (rank : ℚ) := by exact_mod_cast hr
          have h2 : (0 : ℚ) ≤ (k : ℚ) := Nat.cast_nonneg k
          linarith
        refine one_div_lt_one_div_of_lt h0 ?_
        push_cast
        linarith
      · rw [← rankedList]
        exact ih (rank + 1) (by omega)

/-- C6, counterexample: stated for *every* non-empty list `L`, the claim
fails when `L` repeats a chunk id. Fusing ["a", "b", "a"] with the empty
list accumulates both of "a"'s reciprocal ranks into a single dict entry,
so only two entries come back, not the first 3 items of `L`. -/
theorem reciprocal_rank_fusion_dup_counterexample :
    (reciprocal_rank_fusion ["a", "b", "a"] [] 3 60).map Prod.fst ≠
      (["a", "b", "a"] : List String).take 3 := by
  norm_num [reciprocal_rank_fusion, fusedRanking, rrfScores, addRanks, dictAdd,
    sortDesc, insertDesc]

/-- C6, amended: fusing two empty candidate lists returns the empty list;
and for every list `L` of pairwise-distinct chunk ids (ranked result lists
repeat no chunk id) and every `topK`, fusing `L` with an empty list returns
exactly the first `topK` chunk ids of `L` in `L`'s original order. -/
theorem reciprocal_rank_fusion_empty_cases (L : List String) (top_k k : ℕ)
    (hL : L.Nodup) :
    reciprocal_rank_fusion [] [] top_k k = [] ∧
      (reciprocal_rank_fusion L [] top_k k).map Prod.fst = L.take top_k := by
  constructor
  · simp [reciprocal_rank_fusion, fusedRanking, addRanks, sortDesc]
  · unfold reciprocal_rank_fusion fusedRanking rrfScores
    rw [show addRanks k (addRanks k [] L 1) [] 1 = addRanks k [] L 1 from rfl]
    rw [addRanks_eq_append_rankedList k L [] 1 hL (by simp [keysOf])]
    rw [List.nil_append,
        sortDesc_eq_of_chain _ (rankedList_chain k L 1 le_rfl),
        List.map_take,
        show (rankedList k L 1).map Prod.fst = keysOf (rankedList k L 1) from rfl,
        keysOf_rankedList]

/-- C9, counterexample: the claim says an id occurring in both input lists
yields exactly one output entry, but the `[:top_k]` truncation can drop it
entirely: with `top_k = 0`, "a" is in both lists yet the output has no
entry for it. -/
theorem reciprocal_rank_fusion_truncation_counterexample :
    (reciprocal_rank_fusion ["a"] ["a"] 0 60).countP
      (fun p => decide (p.1 = "a")) = 0 := rfl

/-- A dict with no duplicate keys holds each present key exactly once. -/
theorem countP_key_eq_of_nodup (id : String) :
    ∀ d : List (String × ℚ), (keysOf d).Nodup →
      d.countP (fun p => decide (p.1 = id)) = if id ∈ keysOf d then 1 else 0 := by
  intro d
  induction d with
  | nil => intro _; simp [keysOf]
  | cons hd t ih =>
    intro h
    obtain ⟨key, s⟩ := hd
    rw [keysOf, List.map_cons] at h
    have h' := List.nodup_cons.mp h
    rw [List.countP_cons, ih h'.2]
    by_cases hk : key = id
    · subst hk
      rw [if_neg (show key ∉ keysOf t from h'.1),
          if_pos (show key ∈ keysOf ((key, s) :: t) from by
            rw [keysOf, List.map_cons]; exact List.mem_cons_self _ _)]
      simp
    · have hiff : (id ∈ keysOf ((key, s) :: t)) ↔ id ∈ keysOf t := by
        rw [keysOf, List.map_cons, List.mem_cons]
        exact or_iff_right (fun hc => hk hc.symm)
      rw [if_neg (show ¬((fun p : String × ℚ => decide (p.1 = id)) (key, s) = true)
            from by simpa using hk)]
      simp only [hiff, add_zero]

/-- C9, amended: for every pair of input candidate lists and every `topK`,
`_reciprocal_rank_fusion` returns at most `topK` entries whose chunk ids
are pairwise distinct; every returned entry's fused score is the sum of its
reciprocal-rank contributions from the two lists; and an id occurring in
both input lists has exactly one entry in the fused ranking before the
`[:top_k]` truncation (the truncation may drop it from the output). -/
theorem reciprocal_rank_fusion_properties (vec bm : List String)
    (top_k k : ℕ) (id : String) :
    (reciprocal_rank_fusion vec bm top_k k).length ≤ top_k ∧
    ((reciprocal_rank_fusion vec bm top_k k).map Prod.fst).Nodup ∧
    (∀ p ∈ reciprocal_rank_fusion vec bm top_k k,
        p.2 = contrib k vec p.1 + contrib k bm p.1) ∧
    (id ∈ vec → id ∈ bm →
      (fusedRanking vec bm k).countP (fun p => decide (p.1 = id)) = 1) := by
  have hnd : (keysOf (rrfScores vec bm k)).Nodup :=
    nodup_keysOf_addRanks k bm _ 1
      (nodup_keysOf_addRanks k vec [] 1 (by simp [keysOf]))
  have hperm : List.Perm (fusedRanking vec bm k) (rrfScores vec bm k) :=
    sortDesc_perm _
  refine ⟨?_, ?_, ?_, ?_⟩
  · rw [reciprocal_rank_fusion, List.length_take]
    exact min_le_left _ _
  · have h1 : ((fusedRanking vec bm k).map Prod.fst).Nodup :=
      (List.Perm.nodup_iff (hperm.map Prod.fst)).mpr hnd
    rw [reciprocal_rank_fusion, List.map_take]
    exact List.Nodup.sublist (List.take_sublist _ _) h1
  · intro p hp
    have hp1 : p ∈ fusedRanking vec bm k :=
      (List.take_sublist top_k (fusedRanking vec bm k)).subset hp
    have hp2 : p ∈ rrfScores vec bm k := hperm.subset hp1
    have hsome := scoreOf_eq_of_mem hnd hp2
    have hval : scoreOfD (rrfScores vec bm k) p.1 = p.2 := by
      rw [scoreOfD, hsome]; rfl
    have hsum : scoreOfD (rrfScores vec bm k) p.1 =
        contrib k vec p.1 + contrib k bm p.1 := by
      rw [rrfScores, addRanks_scoreOfD, addRanks_scoreOfD]
      simp [scoreOfD, scoreOf, contrib]
    rw [← hval, hsum]
  · intro hv hb
    rw [fusedRanking, List.Perm.countP_eq _ (sortDesc_perm _),
        countP_key_eq_of_nodup id _ hnd,
        if_pos (show id ∈ keysOf (rrfScores vec bm k) from by
          rw [rrfScores]
          exact (mem_keysOf_addRanks k bm _ 1 id).mpr (Or.inr hb))]

/-- Witness for `reciprocal_rank_fusion_properties` at
`vec = bm = ["a"]`, `topK = 5`, `k = 60`. -/
theorem reciprocal_rank_fusion_properties_witness :
    (reciprocal_rank_fusion ["a"] ["a"] 5 60).length ≤ 5 ∧
      (fusedRanking ["a"] ["a"] 60).countP (fun p => decide (p.1 = "a")) = 1 :=
  ⟨(reciprocal_rank_fusion_properties ["a"] ["a"] 5 60 "a").1,
   (reciprocal_rank_fusion_properties ["a"] ["a"] 5 60 "a").2.2.2
     (by decide) (by decide)⟩

/-- Witness for `reciprocal_rank_fusion_empty_cases` at `L = ["x", "y"]`,
`topK = 1`, `k = 60`. -/
theorem reciprocal_rank_fusion_empty_cases_witness :
    reciprocal_rank_fusion [] [] 1 60 = [] ∧
      (reciprocal_rank_fusion ["x", "y"] [] 1 60).map Prod.fst =
        (["x", "y"] : List String).take 1 :=
  reciprocal_rank_fusion_empty_cases ["x", "y"] 1 60 (by decide)

/-! ### Lemmas about the agent's source accumulator -/

theorem mem_of_getLast?_eq {α : Type} {l : List α} {a : α}
    (h : l.getLast? = some a) : a ∈ l := by
  induction l with
  | nil => cases h
  | cons b t ih =>
    cases t with
    | nil =>
      rw [List.getLast?_singleton] at h
      rw [Option.some_inj] at h
      subst h
      exact List.mem_singleton_self _
    | cons c u =>
      rw [List.getLast?_cons_cons] at h
      exact List.mem_cons_of_mem b (ih h)

theorem getLast?_cons_of_ne_nil {α : Type} {l : List α} (a : α) (h : l ≠ []) :
    (a :: l).getLast? = l.getLast? := by
  cases l with
  | nil => exact absurd rfl h
  | cons b t => exact List.getLast?_cons_cons

theorem insertStep_self_prfx (acc : List (String × Cand)) (c : Cand) :
    acc <+: insertStep acc c := by
  unfold insertStep
  by_cases h : c.chunk_id ∈ acc.map Prod.fst
  · rw [if_pos h]
  · rw [if_neg h]
    exact List.prefix_append acc _

theorem insertStep_keysNodup {acc : List (String × Cand)} {c : Cand}
    (h : keysNodup acc) : keysNodup (insertStep acc c) := by
  unfold insertStep
  by_cases hm : c.chunk_id ∈ acc.map Prod.fst
  · rwa [if_pos hm]
  · rw [if_neg hm]
    unfold keysNodup at h ⊢
    rw [List.map_append]
    simp [List.nodup_append, h, hm]

theorem insertStep_length (acc : List (String × Cand)) (c : Cand) :
    (insertStep acc c).length ≤ acc.length + 1 := by
  unfold insertStep
  by_cases hm : c.chunk_id ∈ acc.map Prod.fst
  · rw [if_pos hm]; omega
  · rw [if_neg hm]; simp

theorem snapshots_ne_nil (acc : List (String × Cand)) (cs : List Cand) :
    snapshots acc cs ≠ [] := by
  cases cs <;> simp [snapshots]

theorem snapshots_head? (acc : List (String × Cand)) (cs : List Cand) :
    (snapshots acc cs).head? = some acc := by
  cases cs <;> simp [snapshots]

theorem snapshots_getLast? (cs : List Cand) :
    ∀ acc, (snapshots acc cs).getLast? = some (insertCands acc cs) := by
  induction cs with
  | nil => intro acc; simp [snapshots, insertCands]
  | cons c rest ih =>
    intro acc
    rw [snapshots,
        getLast?_cons_of_ne_nil acc (snapshots_ne_nil _ _),
        ih (insertStep acc c)]
    rw [show insertCands acc (c :: rest) = insertCands (insertStep acc c) rest
          from by simp [insertCands]]

theorem snapshots_chain (cs : List Cand) :
    ∀ acc, (snapshots acc cs).Chain' (· <+: ·) := by
  induction cs with
  | nil => intro acc; simp [snapshots]
  | cons c rest ih =>
    intro acc
    rw [snapshots]
    refine List.chain'_cons'.mpr ⟨?_, ih _⟩
    intro y hy
    rw [snapshots_head?, Option.mem_some_iff] at hy
    subst hy
    exact insertStep_self_prfx acc c

theorem mem_snapshots (cs : List Cand) :
    ∀ acc x, x ∈ snapshots acc cs →
      acc <+: x ∧ (keysNodup acc → keysNodup x) ∧
        x.length ≤ acc.length + cs.length := by
  induction cs with
  | nil =>
    intro acc x hx
    rw [snapshots, List.mem_singleton] at hx
    subst hx
    exact ⟨List.prefix_refl _, fun h => h, by simp⟩
  | cons c rest ih =>
    intro acc x hx
    rw [snapshots] at hx
    rcases List.mem_cons.mp hx with rfl | hx
    · refine ⟨List.prefix_refl _, fun h => h, ?_⟩
      rw [List.length_cons]
      omega
    · obtain ⟨hpre, hnd, hlen⟩ := ih (insertStep acc c) x hx
      have hstep := insertStep_length acc c
      refine ⟨(insertStep_self_prfx acc c).trans hpre, ?_, ?_⟩
      · intro h; exact hnd (insertStep_keysNodup h)
      · rw [List.length_cons]
        omega

theorem searchBody_fst_trace (env : AgentEnv) (cfg : AgentCfg) (oq : String)
    (i : ℕ) (st : AgentSt) :
    (searchBody env cfg oq i st).1.trace =
      st.trace ++
        snapshots st.all_sources
          (env.search i st.current_query cfg.initial_candidates) := rfl

theorem searchBody_fst_all (env : AgentEnv) (cfg : AgentCfg) (oq : String)
    (i : ℕ) (st : AgentSt) :
    (searchBody env cfg oq i st).1.all_sources =
      insertCands st.all_sources
        (env.search i st.current_query cfg.initial_candidates) := rfl

theorem searchBody_chain (env : AgentEnv) (cfg : AgentCfg) (oq : String)
    (i : ℕ) (st : AgentSt) (h : TraceChain st) :
    TraceChain (searchBody env cfg oq i st).1 := by
  obtain ⟨hne, hlast, hchain, hnd⟩ := h
  have hall : st.all_sources ∈ st.trace := mem_of_getLast?_eq hlast
  refine ⟨?_, ?_, ?_, ?_⟩
  · rw [searchBody_fst_trace]
    intro hcontra
    rcases List.append_eq_nil.mp hcontra with ⟨-, h2⟩
    exact snapshots_ne_nil _ _ h2
  · rw [searchBody_fst_trace, searchBody_fst_all,
        List.getLast?_append_of_ne_nil _ (snapshots_ne_nil _ _)]
    exact snapshots_getLast? _ _
  · rw [searchBody_fst_trace]
    refine List.Chain'.append hchain (snapshots_chain _ _) ?_
    intro x hx y hy
    rw [hlast, Option.mem_some_iff] at hx
    rw [snapshots_head?, Option.mem_some_iff] at hy
    subst hx; subst hy
    exact List.prefix_refl _
  · rw [searchBody_fst_trace]
    intro acc hacc
    rcases List.mem_append.mp hacc with hacc | hacc
    · exact hnd acc hacc
    · exact (mem_snapshots _ _ _ hacc).2.1 (hnd _ hall)

theorem searchBody_len (env : AgentEnv) (cfg : AgentCfg) (oq : String)
    (i : ℕ) (st : AgentSt) (B : ℕ)
    (hB : ∀ j q, (env.search j q cfg.initial_candidates).length ≤ B)
    (hlen : TraceLen cfg B st)
    (hentry : st.all_sources.length ≤ cfg.max_sources - 1) :
    TraceLen cfg B (searchBody env cfg oq i st).1 := by
  intro acc hacc
  rw [searchBody_fst_trace] at hacc
  rcases List.mem_append.mp hacc with hacc | hacc
  · exact hlen acc hacc
  · have h1 := (mem_snapshots _ _ _ hacc).2.2
    have h2 := hB i st.current_query
    omega

theorem searchBody_entry (env : AgentEnv) (cfg : AgentCfg) (oq : String)
    (i : ℕ) (st : AgentSt)
    (hstop : (searchBody env cfg oq i st).2 = false) :
    (searchBody env cfg oq i st).1.all_sources.length ≤ cfg.max_sources - 1 := by
  rw [searchBody_fst_all]
  by_contra hcon
  push_neg at hcon
  have hms : cfg.max_sources ≤
      (insertCands st.all_sources
        (env.search i st.current_query cfg.initial_candidates)).length := by
    omega
  have htrue : (searchBody env cfg oq i st).2 = true := by
    simp only [searchBody]
    simp [hms]
  rw [htrue] at hstop
  cases hstop

theorem searchLoop_chain (env : AgentEnv) (cfg : AgentCfg) (oq : String) :
    ∀ (r i : ℕ) (st : AgentSt), TraceChain st →
      TraceChain (searchLoop env cfg oq r i st) := by
  intro r
  induction r with
  | zero => intro i st h; simpa [searchLoop] using h
  | succ n ih =>
    intro i st h
    rw [searchLoop]
    by_cases hs : (searchBody env cfg oq i st).2 = true
    · rw [if_pos hs]
      exact searchBody_chain env cfg oq i st h
    · rw [if_neg hs]
      exact ih (i + 1) _ (searchBody_chain env cfg oq i st h)

theorem searchLoop_len (env : AgentEnv) (cfg : AgentCfg) (oq : String) (B : ℕ)
    (hB : ∀ j q, (env.search j q cfg.initial_candidates).length ≤ B) :
    ∀ (r i : ℕ) (st : AgentSt), TraceLen cfg B st →
      st.all_sources.length ≤ cfg.max_sources - 1 →
      TraceLen cfg B (searchLoop env cfg oq r i st) := by
  intro r
  induction r with
  | zero => intro i st h _; simpa [searchLoop] using h
  | succ n ih =>
    intro i st h hentry
    rw [searchLoop]
    by_cases hs : (searchBody env cfg oq i st).2 = true
    · rw [if_pos hs]
      exact searchBody_len env cfg oq i st B hB h hentry
    · rw [if_neg hs]
      exact ih (i + 1) _ (searchBody_len env cfg oq i st B hB h hentry)
        (searchBody_entry env cfg oq i st (by simpa using hs))

theorem lookupId_append (t : List (String × Cand)) :
    ∀ (a : List (String × Cand)) (id : String), (lookupId a id).isSome →
      lookupId (a ++ t) id = lookupId a id := by
  intro a
  induction a with
  | nil => intro id h; simp [lookupId] at h
  | cons hd u ih =>
    intro id h
    obtain ⟨key, c⟩ := hd
    by_cases hk : key = id
    · simp [lookupId, hk]
    · simp only [List.cons_append, lookupId, if_neg hk] at h ⊢
      exact ih id h

theorem lookupId_of_prfx {a b : List (String × Cand)} {id : String} {c : Cand}
    (hab : a <+: b) (h : lookupId a id = some c) : lookupId b id = some c := by
  obtain ⟨t, rfl⟩ := hab
  rw [lookupId_append t a id (by simp [h])]
  exact h

/-- C1 (code bug): in any run in which the loop records zero iterations —
exactly the runs with `max_iterations = 0` — `search_iteratively` does not
return the zero-iteration result the spec requires: line 152 reads the
never-assigned local `reranked` and raises `NameError`. -/
theorem search_iteratively_zero_iterations_raises (env : AgentEnv)
    (cfg : AgentCfg) (q : String) (h : cfg.max_iterations = 0) :
    search_iteratively env cfg q = .error .unboundLocalReranked := by
  unfold search_iteratively finalState
  rw [h]
  rfl

/-- Witness for `search_iteratively_zero_iterations_raises` at a concrete
environment and `max_iterations = 0`. -/
theorem search_iteratively_zero_iterations_raises_witness :
    search_iteratively envX cfg0 "kysymys" = .error .unboundLocalReranked :=
  search_iteratively_zero_iterations_raises envX cfg0 "kysymys" rfl

/-- C2, counterexample: the accumulator is *not* bounded by `max_sources`
at every point. Candidates are inserted without a cap and the
`len(all_sources) >= max_sources` check only breaks after an iteration, so
with `max_sources = 1` a single two-candidate batch drives the accumulator
to size 2. -/
theorem accumulator_exceeds_max_sources :
    (finalState envX cfgX "kysely").trace.any
      (fun acc => decide (cfgX.max_sources < acc.length)) = true := by decide

/-- C2, amended: if every retrieval batch has at most `B` candidates, then
at every point of every run the accumulator's size is at most
`max_sources - 1 + B`: the loop only continues below `max_sources`, and one
uncapped batch can exceed the cap by at most `B`. -/
theorem accumulator_size_bound (env : AgentEnv) (cfg : AgentCfg) (q : String)
    (B : ℕ)
    (hB : ∀ i qq, (env.search i qq cfg.initial_candidates).length ≤ B) :
    ∀ acc ∈ (finalState env cfg q).trace,
      acc.length ≤ cfg.max_sources - 1 + B := by
  refine searchLoop_len env cfg q B hB cfg.max_iterations 1 (initialSt q)
    ?_ ?_
  · intro acc hacc
    rw [initialSt] at hacc
    rw [List.mem_singleton] at hacc
    subst hacc
    simp
  · simp [initialSt]

/-- Witness for `accumulator_size_bound` with the concrete environment
(batches of size 2) at the initial snapshot. -/
theorem accumulator_size_bound_witness :
    ([] : List (String × Cand)).length ≤ cfgX.max_sources - 1 + 2 :=
  accumulator_size_bound envX cfgX "kysely" 2 (fun _ _ => Nat.le_refl 2) []
    (by decide)

/-- C3: throughout any run, every accumulator snapshot has pairwise-distinct
chunk ids; consecutive snapshots extend each other (entries are only ever
appended), so the accumulator never shrinks and the value first stored
under a chunk id is still what any later snapshot yields for that id. -/
theorem accumulator_dedup_monotone (env : AgentEnv) (cfg : AgentCfg)
    (q : String) :
    (∀ acc ∈ (finalState env cfg q).trace, (acc.map Prod.fst).Nodup) ∧
      (finalState env cfg q).trace.Chain' (· <+: ·) ∧
      (finalState env cfg q).trace.Chain'
        (fun a b => a.length ≤ b.length ∧
          ∀ id c, lookupId a id = some c → lookupId b id = some c) := by
  have h0 : TraceChain (initialSt q) := by
    refine ⟨by simp [initialSt], by simp [initialSt], by simp [initialSt], ?_⟩
    intro acc hacc
    rw [initialSt] at hacc
    rw [List.mem_singleton] at hacc
    subst hacc
    simp [keysNodup]
  obtain ⟨hne, hlast, hchain, hnd⟩ :=
    searchLoop_chain env cfg q cfg.max_iterations 1 (initialSt q) h0
  refine ⟨fun acc h => hnd acc h, hchain, ?_⟩
  refine hchain.imp ?_
  intro a b hab
  exact ⟨hab.sublist.length_le, fun id c hl => lookupId_of_prfx hab hl⟩

/-- Witness for `accumulator_dedup_monotone` at the concrete environment:
the empty initial snapshot has duplicate-free keys, and the concrete run's
trace is a prefix chain. -/
theorem accumulator_dedup_monotone_witness :
    ((([] : List (String × Cand)).map Prod.fst).Nodup) ∧
      (finalState envX cfgX "kysely").trace.Chain' (· <+: ·) :=
  ⟨(accumulator_dedup_monotone envX cfgX "kysely").1 [] (by decide),
   (accumulator_dedup_monotone envX cfgX "kysely").2.1⟩

/-! ### The completeness assessor's fallback (C7) -/

/-- C7, counterexample: with an empty source list the function does return
confidence 0.0, but its missing-info list is
["Tarvitaan relevantteja lähteitä"], not the empty list the claim states. -/
theorem assess_completeness_empty_missing_info :
    (assess_completeness aenvW "kysymys" [] 1).missing_info ≠ [] := by decide

/-- C7, amended: `_assess_completeness` is total (never raises). With an
empty source list it returns confidence 0.0 together with the one-element
missing-info list ["Tarvitaan relevantteja lähteitä"] (not an empty list).
Whenever sources are non-empty and JSON parsing of the LLM response fails
for any reason — the LLM call raising, no valid brace span (in particular
no braces at all), or `json.loads` failing — it returns the heuristic:
confidence `min(0.5 + sourceCount/40, 0.9)` and an empty missing-info
list. -/
theorem assess_completeness_fallback (aenv : AssessorEnv) (query : String)
    (sources : List Cand) (iteration : ℕ) :
    (sources = [] →
      assess_completeness aenv query sources iteration =
        ⟨"Ei lähteitä löytynyt", 0, ["Tarvitaan relevantteja lähteitä"]⟩) ∧
    (sources ≠ [] →
      assess_parse_failed aenv (assessment_prompt query sources) = true →
      assess_completeness aenv query sources iteration =
        heuristic_fallback sources) := by
  constructor
  · intro h; subst h; rfl
  · intro hne hfail
    unfold assess_completeness
    rw [if_neg (by simpa [List.isEmpty_iff] using hne)]
    unfold assess_parse_failed at hfail
    cases hgen : aenv.generate (assessment_prompt query sources) with
    | error e => rfl
    | ok response =>
      rw [hgen] at hfail
      simp only at hfail ⊢
      by_cases hc : 0 ≤ pyFind response lbrace ∧
          pyFind response lbrace < pyRFind response rbrace + 1
      · rw [if_pos hc] at hfail
        rw [if_pos hc]
        cases hjs : aenv.jsonLoads (pySlice response (pyFind response lbrace)
            (pyRFind response rbrace + 1)) with
        | error e => rfl
        | ok r => rw [hjs] at hfail; cases hfail
      · rw [if_neg hc]

/-- Witness for `assess_completeness_fallback`: a brace-free LLM response
with one source yields the heuristic fallback. -/
theorem assess_completeness_fallback_witness :
    assess_completeness aenvW "kysymys" [candA] 1 =
      heuristic_fallback [candA] :=
  (assess_completeness_fallback aenvW "kysymys" [candA] 1).2
    (by decide) (by decide)

/-! ### Snippet formats of the two pipelines (C8) -/

theorem mem_research_accumulate (rs : List Cand) :
    ∀ (acc : List (String × FmtSource)) (p : String × FmtSource),
      p ∈ research_accumulate acc rs →
      p ∈ acc ∨ ∃ doc ∈ rs, p = (doc.chunk_id, research_store_source doc) := by
  induction rs with
  | nil =>
    intro acc p hp
    exact Or.inl (by simpa [research_accumulate] using hp)
  | cons doc rest ih =>
    intro acc p hp
    have hp' : p ∈ research_accumulate
        (if doc.chunk_id ∈ acc.map Prod.fst then acc
         else acc ++ [(doc.chunk_id, research_store_source doc)]) rest := by
      simpa [research_accumulate, List.foldl_cons] using hp
    rcases ih _ p hp' with hmem | ⟨d, hd, rfl⟩
    · by_cases hm : doc.chunk_id ∈ acc.map Prod.fst
      · rw [if_pos hm] at hmem
        exact Or.inl hmem
      · rw [if_neg hm] at hmem
        rcases List.mem_append.mp hmem with h | h
        · exact Or.inl h
        · rw [List.mem_singleton] at h
          exact Or.inr ⟨doc, List.mem_cons_self _ _, h⟩
    · exact Or.inr ⟨d, List.mem_cons_of_mem _ hd, rfl⟩

theorem mem_research_fold (ll : List (List Cand)) :
    ∀ (acc : List (String × FmtSource)) (p : String × FmtSource),
      p ∈ ll.foldl research_accumulate acc →
      p ∈ acc ∨
        ∃ doc ∈ ll.join, p = (doc.chunk_id, research_store_source doc) := by
  induction ll with
  | nil =>
    intro acc p hp
    exact Or.inl (by simpa using hp)
  | cons rs rest ih =>
    intro acc p hp
    rw [List.foldl_cons] at hp
    rcases ih _ p hp with hmem | ⟨d, hd, rfl⟩
    · rcases mem_research_accumulate rs acc p hmem with h | ⟨d, hd, rfl⟩
      · exact Or.inl h
      · exact Or.inr ⟨d, List.mem_join.mpr ⟨rs, List.mem_cons_self _ _, hd⟩,
          rfl⟩
    · rcases List.mem_join.mp hd with ⟨s, hs, hds⟩
      exact Or.inr ⟨d, List.mem_join.mpr ⟨s, List.mem_cons_of_mem _ hs, hds⟩,
        rfl⟩

set_option maxRecDepth 4000 in
/-- C8, counterexample: the research pipeline truncates snippets at 150
characters, not 200. A research response holding a 151-character chunk
text carries the snippet `first 150 chars ++ "..."`, while the claimed
format is the whole 151-character text with no ellipsis. -/
theorem research_snippet_counterexample :
    (research_sources [[candLong]]).map FmtSource.snippet ≠
      [spec_snippet_200 candLong.text] := by decide

/-- C8, amended: sources of the iterative pipeline follow the claimed
format with 200 characters; sources of the research pipeline follow the
same format with 150 characters instead of 200. -/
theorem snippet_formats (sources : List Cand) (ll : List (List Cand)) :
    ((format_sources sources).map FmtSource.snippet =
      sources.map (fun src => spec_snippet_200 src.text)) ∧
    (∀ f ∈ research_sources ll, ∃ doc ∈ ll.join,
      f = research_store_source doc ∧ f.snippet = spec_snippet_150 doc.text) := by
  constructor
  · rw [format_sources, List.map_map]
    rfl
  · intro f hf
    rw [research_sources] at hf
    rcases List.mem_map.mp hf with ⟨p, hp, rfl⟩
    rcases mem_research_fold ll [] p hp with h | ⟨doc, hd, rfl⟩
    · cases h
    · exact ⟨doc, hd, rfl, rfl⟩

/-- Witness for `snippet_formats` at a one-source iterative response and a
one-source research response. -/
theorem snippet_formats_witness :
    ((format_sources [candA]).map FmtSource.snippet =
      [candA].map (fun src => spec_snippet_200 src.text)) ∧
      ∃ doc ∈ [[candLong]].join,
        research_store_source candLong = research_store_source doc ∧
          (research_store_source candLong).snippet = spec_snippet_150 doc.text :=
  ⟨(snippet_formats [candA] [[candLong]]).1,
   (snippet_formats [candA] [[candLong]]).2 (research_store_source candLong)
     (by set_option maxRecDepth 4000 in decide)⟩

/-! ### Embedding-failure handling of the two search entry points (C10) -/

/-- C10: if embedding the query fails, `search` does not catch it and the
failure propagates to its caller, while `document_search` catches it and
degrades to lexical-only ranking: it returns exactly what the pipeline
produces with an empty vector contribution. -/
theorem embed_failure_handling (renv : RetrieverEnv) (query : String)
    (top_k max_chunks top_docs : ℕ) (e : Unit)
    (h : renv.embed query = .error e) :
    search renv query top_k = .error e ∧
      document_search renv query max_chunks top_docs =
        lexical_only_document_search renv query max_chunks top_docs := by
  constructor
  · unfold search
    rw [h]
  · unfold document_search lexical_only_document_search
    rw [h]

/-- Witness for `embed_failure_handling` at a concrete failing embedder. -/
theorem embed_failure_handling_witness :
    search renvErr "kysely" 3 = .error () ∧
      document_search renvErr "kysely" 5 0 =
        lexical_only_document_search renvErr "kysely" 5 0 :=
  embed_failure_handling renvErr "kysely" 3 5 0 () rfl

end DriveRag
